import Mathlib

/-!
# Directed weighted graph with adjacency lists (`graph.h`, `graph.c`)

A shallow embedding of the C sources.

* A NULL-terminated chain of `edge_t` records linked through `next` is a
  `List edge_t`: the head of the list is the record the pointer refers to,
  `[]` is the NULL pointer.  Chains with a cycle have no image in this model.
* `adjacency_list_t` keeps its single field `first`.
* `graph_t.adjacency_lists` is `none` for the NULL pointer and `some ls` for a
  pointer to an array holding `ls.length` adjacency lists.
* `unsigned` is a natural number below `UINT_RANGE = 2 ^ 32`; arithmetic the
  source does on `unsigned` is reduced modulo `UINT_RANGE`.
* A read past the end of the `adjacency_lists` array (or through NULL) is
  undefined in C; operations that index the array return `Option`, and
  `none` stands for such a read.
-/

namespace Graph

/-- Number of values of the C type `unsigned` (32 bits wide). -/
def UINT_RANGE : Nat := 2 ^ 32

/-- The record `edge_t` of `graph.h` without its `next` pointer, which is the
position in the chain. -/
structure edge_t where
  tail : Nat
  head : Nat
  weight : Nat
  deriving DecidableEq

/-- The record `adjacency_list_t` of `graph.h`. -/
structure adjacency_list_t where
  first : List edge_t
  deriving DecidableEq

/-- The record `graph_t` of `graph.h`. -/
structure graph_t where
  vertex_count : Nat
  edge_count : Nat
  adjacency_lists : Option (List adjacency_list_t)
  deriving DecidableEq

/-- The element `graph->adjacency_lists[i]`, `none` when the pointer is NULL or
`i` is outside the array. -/
def graph_t.list_at (graph : graph_t) (i : Nat) : Option adjacency_list_t :=
  match graph.adjacency_lists with
  | none => none
  | some ls => ls[i]?

/-! ## `graph_indegree` (graph.c, lines 83-106) -/

/-- The inner loop of `graph_indegree`:
`for (edge = list->first; edge != NULL; edge = edge->next) if (edge->head == id) result++;`
started with the given value of `result`. -/
def graph_indegree_chain (id : Nat) : List edge_t → Nat → Nat
  | [], result => result
  | edge :: next, result =>
    graph_indegree_chain id next
      (if edge.head = id then (result + 1) % UINT_RANGE else result)

/-- The outer loop of `graph_indegree`, `for (i = ...; i < vertex_count; i++)`,
with `remaining = vertex_count - i` iterations still to run. -/
def graph_indegree_loop (graph : graph_t) (id : Nat) : Nat → Nat → Nat → Option Nat
  | 0, _, result => some result
  | remaining + 1, i, result =>
    match graph.list_at i with
    | none => none
    | some list =>
      graph_indegree_loop graph id remaining (i + 1)
        (graph_indegree_chain id list.first result)

/-- The function `graph_indegree` of graph.c. -/
def graph_indegree (graph : graph_t) (id : Nat) : Option Nat :=
  if id < graph.vertex_count then
    graph_indegree_loop graph id graph.vertex_count 0 0
  else
    some 0

/-- All edges stored in the given adjacency lists, list after list. -/
def all_edges (ls : List adjacency_list_t) : List edge_t :=
  (ls.map (fun l => l.first)).flatten

/-- Number of edges in the given adjacency lists whose head is `id`. -/
def edges_into (ls : List adjacency_list_t) (id : Nat) : Nat :=
  (all_edges ls).countP (fun e => e.head = id)

/-! ## Functions whose body in graph.c only asserts and returns

`graph.c` is the hand-out of an exercise: of the functions below it holds the
assertions on the pointer arguments and a fixed return value, nothing else.
A pointer argument that the body never writes through comes back unchanged. -/

/-- The function `list_size` of graph.c (lines 25-30): `return 0;`. -/
def list_size (_list : adjacency_list_t) : Nat := 0

/-- The function `graph_initialise` of graph.c (lines 48-53): `return false;`,
the graph is not written. The pair is the return value and the graph after
the call. -/
def graph_initialise (graph : graph_t) (_vertex_count : Nat) : Bool × graph_t :=
  (false, graph)

/-- The function `graph_release` of graph.c (lines 62-65): an empty body. The
result is the graph after the call. -/
def graph_release (graph : graph_t) : graph_t := graph

/-- The function `graph_connect` of graph.c (lines 68-74): `return false;`, the
graph is not written. The pair is the return value and the graph after the
call. -/
def graph_connect (graph : graph_t) (_tail _head _weight : Nat) : Bool × graph_t :=
  (false, graph)

/-- The function `graph_disconnect` of graph.c (lines 77-80): an empty body.
The result is the graph after the call. -/
def graph_disconnect (graph : graph_t) (_tail _head : Nat) : graph_t := graph

/-- The function `graph_outdegree` of graph.c (lines 109-114): `return 0;`. -/
def graph_outdegree (_graph : graph_t) (_id : Nat) : Nat := 0

/-- The function `edge_to_string` of graph.c (lines 8-14): after the two
assertions, `str[0] = 0` is the only write. The result is the C string held in
`str` after the call; `none` is the failed assertion `size > 0`. -/
def edge_to_string (_edge : edge_t) (size : Nat) : Option String :=
  if 0 < size then some "" else none

/-- The function `list_is_empty` of graph.c (lines 17-22): `return false;`. -/
def list_is_empty (_list : adjacency_list_t) : Bool := false

/-- The function `list_prepend` of graph.c (lines 33-37): the two assertions
and nothing else; neither the list nor the edge is written. The result is the
list after the call. -/
def list_prepend (list : adjacency_list_t) (_edge : edge_t) : adjacency_list_t := list

/-- The function `list_contains` of graph.c (lines 40-45): `return false;`. -/
def list_contains (_list : adjacency_list_t) (_tail _head : Nat) : Bool := false

/-- The function `graph_print` of graph.c (lines 56-59): an empty body. The
result is the text written to the standard output. -/
def graph_print (_graph : graph_t) : String := ""

/-- The sum of `list_size(&graph->adjacency_lists[v])` over `v` from `i` on,
`remaining` lists in all; `none` when a list is read outside the array. -/
def sum_list_sizes (graph : graph_t) : Nat → Nat → Option Nat
  | 0, _ => some 0
  | remaining + 1, i =>
    match graph.list_at i, sum_list_sizes graph remaining (i + 1) with
    | some list, some rest => some (list_size list + rest)
    | _, _ => none

/-- The predicate
`edge_count == sum over all v < vertex_count of list_size(adjacency_lists[v])`. -/
def edge_count_invariant (graph : graph_t) : Prop :=
  sum_list_sizes graph graph.vertex_count 0 = some graph.edge_count

instance (graph : graph_t) : Decidable (edge_count_invariant graph) := by
  unfold edge_count_invariant
  infer_instance

/-! ## Formatted output: the conversion `%d`

Both `fprintf` calls of graph.c print the `unsigned` fields `tail` and `head`
with the conversion `%d`, which reads its argument as an `int`. On the
two's-complement targets the argument with bit pattern `x` is printed as `x`
when `x < 2 ^ 31` and as the negative number `x - 2 ^ 32` otherwise. -/

/-- The characters `printf("%d", x)` produces for an `unsigned` argument `x`. -/
def printf_d (x : Nat) : String :=
  if x % UINT_RANGE < 2 ^ 31 then Nat.repr (x % UINT_RANGE)
  else "-" ++ Nat.repr (UINT_RANGE - x % UINT_RANGE)

/-- The characters `printf("%u", x)` produces: the decimal value of `x`. -/
def printf_u (x : Nat) : String := Nat.repr (x % UINT_RANGE)

/-! ## `graph_to_dot` (graph.c, lines 166-188) -/

/-- The inner loop of `graph_to_dot`: one `fprintf(fp, "%d -> %d\n", ...)` per
edge of the chain, appended to the text written so far. -/
def graph_to_dot_chain : List edge_t → String → String
  | [], out => out
  | edge :: next, out =>
    graph_to_dot_chain next
      (out ++ printf_d edge.tail ++ " -> " ++ printf_d edge.head ++ "\n")

/-- The outer loop of `graph_to_dot` with `remaining = vertex_count - i`
iterations still to run. -/
def graph_to_dot_loop (graph : graph_t) : Nat → Nat → String → Option String
  | 0, _, out => some out
  | remaining + 1, i, out =>
    match graph.list_at i with
    | none => none
    | some list =>
      graph_to_dot_loop graph remaining (i + 1) (graph_to_dot_chain list.first out)

/-- The function `graph_to_dot` of graph.c. `opened` tells whether
`fopen(pathname, "w")` returned a stream; the result is the text written to
that stream (nothing when there is none). -/
def graph_to_dot (graph : graph_t) (opened : Bool) : Option String :=
  if opened then
    match graph_to_dot_loop graph graph.vertex_count 0 "digraph \x7b\n" with
    | none => none
    | some out => some (out ++ "\x7d\n")
  else
    some ""

/-- One line `<tail> -> <head>` per edge, both numbers as the decimal value of
the `unsigned` field. -/
def dot_edge_lines : List edge_t → String
  | [] => ""
  | e :: rest =>
    (printf_u e.tail ++ " -> " ++ printf_u e.head ++ "\n") ++ dot_edge_lines rest

/-- The text the description of `graph_to_dot` asks for: the opening line, one
line `<tail> -> <head>` per edge with both numbers in decimal (vertices in
ascending order, the edges of a vertex in list order), the closing line. -/
def dot_text (ls : List adjacency_list_t) : String :=
  "digraph \x7b\n" ++ dot_edge_lines (all_edges ls) ++ "\x7d\n"

/-! ## Reading: the stream and `fscanf`

A stream opened for reading is the characters not yet read and the
end-of-file indicator that `feof` reports. The indicator is set when a read
finds no character left, which also happens when `fscanf` looks for the
character after the last digit of a number and there is none. -/

/-- The state of a `FILE *` opened with mode `"r"`. -/
structure FILE where
  unread : List Char
  eof : Bool
  deriving DecidableEq

/-- The stream `fopen(pathname, "r")` returns for a file with this content. -/
def fopen_r (content : String) : FILE := ⟨content.toList, false⟩

/-- The function `feof`. -/
def feof (fp : FILE) : Bool := fp.eof

/-- The C function `isspace` in the "C" locale. -/
def isspace (c : Char) : Bool :=
  c = ' ' || c = '\t' || c = '\n' || c = '\x0b' || c = '\x0c' || c = '\r'

/-- The C function `isdigit`. -/
def isdigit (c : Char) : Bool := '0' ≤ c && c ≤ '9'

/-- Reads white space up to the first other character, which stays unread; at
the end of the input the end-of-file indicator is set. -/
def skip_space (eof : Bool) : List Char → FILE
  | [] => ⟨[], true⟩
  | c :: rest => if isspace c then skip_space eof rest else ⟨c :: rest, eof⟩

/-- Reads the digits at the front of the input into `acc` (in base ten); the
first other character stays unread, and at the end of the input the
end-of-file indicator is set. -/
def scan_digits (eof : Bool) : List Char → Nat → Nat × FILE
  | [], acc => (acc, ⟨[], true⟩)
  | c :: rest, acc =>
    if isdigit c then scan_digits eof rest (10 * acc + (c.toNat - '0'.toNat))
    else (acc, ⟨c :: rest, eof⟩)

/-- How one conversion of `fscanf` ends. -/
inductive conversion where
  | assigned (value : Nat)
  | input_failure
  | matching_failure
  deriving DecidableEq

/-- The digits of a `%u` field, after the optional sign: at least one digit is
needed. The value read is stored in an `unsigned`, negated when the sign is
`-`. A numeral that an `unsigned` cannot hold is outside what C defines for
`fscanf`; the model keeps its value modulo `UINT_RANGE`. -/
def scan_u_digits (eof : Bool) (negative : Bool) : List Char → conversion × FILE
  | [] => (.matching_failure, ⟨[], true⟩)
  | c :: rest =>
    if isdigit c then
      let r := scan_digits eof (c :: rest) 0
      let value := r.1 % UINT_RANGE
      (.assigned (if negative then (UINT_RANGE - value) % UINT_RANGE else value), r.2)
    else
      (.matching_failure, ⟨c :: rest, eof⟩)

/-- The conversion `%u` of `fscanf`: white space is skipped, then an optional
sign and a non-empty run of digits are read. With no character left after the
white space the conversion is an input failure; with a character that cannot
start a number it is a matching failure and that character stays unread. -/
def scan_u (fp : FILE) : conversion × FILE :=
  match skip_space fp.eof fp.unread with
  | ⟨[], eof⟩ => (.input_failure, ⟨[], eof⟩)
  | ⟨c :: rest, eof⟩ =>
    if c = '+' then scan_u_digits eof false rest
    else if c = '-' then scan_u_digits eof true rest
    else scan_u_digits eof false (c :: rest)

/-- The value `EOF` that `fscanf` returns on an input failure before the first
conversion. -/
def EOF : Int := -1

/-- What a call of `fscanf` leaves: its return value, the values assigned in
order, and the stream. -/
structure scanned where
  n : Int
  values : List Nat
  fp : FILE
  deriving DecidableEq

/-- The call `fscanf(fp, "%u", &vertex_count)`. -/
def fscanf_u (fp : FILE) : scanned :=
  match scan_u fp with
  | (.assigned v, fp1) => ⟨1, [v], fp1⟩
  | (.input_failure, fp1) => ⟨EOF, [], fp1⟩
  | (.matching_failure, fp1) => ⟨0, [], fp1⟩

/-- The call `fscanf(fp, "%u %u %u", &tail, &head, &weight)`. A blank in the
format reads white space (any amount, also none) and cannot fail. -/
def fscanf_u_u_u (fp : FILE) : scanned :=
  match scan_u fp with
  | (.input_failure, fp1) => ⟨EOF, [], fp1⟩
  | (.matching_failure, fp1) => ⟨0, [], fp1⟩
  | (.assigned tail, fp1) =>
    match scan_u (skip_space fp1.eof fp1.unread) with
    | (.assigned head, fp2) =>
      match scan_u (skip_space fp2.eof fp2.unread) with
      | (.assigned weight, fp3) => ⟨3, [tail, head, weight], fp3⟩
      | (_, fp3) => ⟨2, [tail, head], fp3⟩
    | (_, fp2) => ⟨1, [tail], fp2⟩

/-! ## `graph_build_from_file` (graph.c, lines 117-163)

The function calls `graph_initialise` and `graph_connect`. The embedding takes
the two callees as arguments, so that the read loop can be studied for any
behaviour of theirs; `graph_build_from_file` is the instance with the two
functions of graph.c. The calls made to `graph_connect` are recorded, as is the
text printed on `stderr`. -/

/-- The state the read loop works on. -/
structure build_state where
  graph : graph_t
  fp : FILE
  connect_calls : List (Nat × Nat × Nat)
  stderr : String
  deriving DecidableEq

/-- The body of the loop at lines 132-152: one `fscanf`, then, unless the
end-of-file indicator is set, `graph_connect` on a return value of 3 and the
message on `stderr` when `graph_connect` returns true. -/
def build_step (connect : graph_t → Nat → Nat → Nat → Bool × graph_t)
    (st : build_state) : build_state :=
  let r := fscanf_u_u_u st.fp
  if !feof r.fp then
    if r.n = 3 then
      match r.values with
      | [tail, head, weight] =>
        let c := connect st.graph tail head weight
        { graph := c.2
          fp := r.fp
          connect_calls := st.connect_calls ++ [(tail, head, weight)]
          stderr :=
            if c.1 then
              st.stderr ++ "Failed to connect: " ++ printf_d tail ++ "->"
                ++ printf_d head ++ "\n"
            else st.stderr }
      | _ => { st with fp := r.fp }
    else { st with fp := r.fp }
  else { st with fp := r.fp }

/-- The loop `while (! feof(fp))` of line 131, run for at most `fuel`
iterations: `none` when the loop has not ended by then. -/
def build_loop (connect : graph_t → Nat → Nat → Nat → Bool × graph_t) :
    Nat → build_state → Option build_state
  | 0, st => if feof st.fp then some st else none
  | fuel + 1, st =>
    if feof st.fp then some st else build_loop connect fuel (build_step connect st)

/-- The body of `graph_build_from_file` over the callees `initialise` and
`connect`. `file` is the content of the file at `pathname`, `none` when
`fopen` returns NULL. -/
def graph_build_from_file_with
    (initialise : graph_t → Nat → Bool × graph_t)
    (connect : graph_t → Nat → Nat → Nat → Bool × graph_t)
    (fuel : Nat) (graph : graph_t) (file : Option String) : Option build_state :=
  match file with
  | none => some ⟨graph, ⟨[], false⟩, [], ""⟩
  | some content =>
    let r := fscanf_u (fopen_r content)
    if r.n = 1 then
      match r.values with
      | [vertex_count] =>
        let g := initialise graph vertex_count
        if g.1 then build_loop connect fuel ⟨g.2, r.fp, [], ""⟩
        else some ⟨g.2, r.fp, [], ""⟩
      | _ => some ⟨graph, r.fp, [], ""⟩
    else some ⟨graph, r.fp, [], ""⟩

/-- The function `graph_build_from_file` of graph.c. -/
def graph_build_from_file (fuel : Nat) (graph : graph_t) (file : Option String) :
    Option build_state :=
  graph_build_from_file_with graph_initialise graph_connect fuel graph file

/-! ## The text of an input file, for statements about the read loop -/

/-- The number a run of decimal digits denotes. -/
def decimal_value (ds : List Char) : Nat :=
  ds.foldl (fun acc c => 10 * acc + (c.toNat - '0'.toNat)) 0

/-- A non-empty run of decimal digits. -/
def is_numeral (ds : List Char) : Prop := ds ≠ [] ∧ ∀ c ∈ ds, isdigit c = true

/-- A non-empty run of white space. -/
def is_blank (ws : List Char) : Prop := ws ≠ [] ∧ ∀ c ∈ ws, isspace c = true

/-- The characters of one record `tail head weight` of the file, each numeral
with the white space in front of it. -/
structure triple_text where
  sep_tail : List Char
  tail : List Char
  sep_head : List Char
  head : List Char
  sep_weight : List Char
  weight : List Char

/-- The record as it stands in the file. -/
def triple_text.chars (t : triple_text) : List Char :=
  t.sep_tail ++ (t.tail ++ (t.sep_head ++ (t.head ++ (t.sep_weight ++ t.weight))))

/-- The record is three numerals, each after some white space. -/
def triple_text.well_formed (t : triple_text) : Prop :=
  is_blank t.sep_tail ∧ is_numeral t.tail ∧ is_blank t.sep_head ∧ is_numeral t.head
    ∧ is_blank t.sep_weight ∧ is_numeral t.weight

/-- The three numbers of the record as `unsigned` values. -/
def triple_text.values (t : triple_text) : Nat × Nat × Nat :=
  (decimal_value t.tail % UINT_RANGE, decimal_value t.head % UINT_RANGE,
    decimal_value t.weight % UINT_RANGE)

/-- The records one after the other. -/
def records_chars (ts : List triple_text) : List Char :=
  (ts.map triple_text.chars).flatten

/-! ## The sum of the in-degrees -/

/-- The sum of `graph_indegree(graph, id)` over all `id < n`; `none` when one
of the calls reads outside the array. -/
def indegree_sum (graph : graph_t) : Nat → Option Nat
  | 0 => some 0
  | n + 1 =>
    match indegree_sum graph n, graph_indegree graph n with
    | some sum, some degree => some (sum + degree)
    | _, _ => none

/-! ## Lemmas on `graph_indegree` -/

theorem graph_indegree_chain_mod (id : Nat) (chain : List edge_t) (result : Nat)
    (h : result < UINT_RANGE) :
    graph_indegree_chain id chain result
      = (result + chain.countP (fun e => e.head = id)) % UINT_RANGE := by
  induction chain generalizing result with
  | nil => simp [graph_indegree_chain, Nat.mod_eq_of_lt h]
  | cons edge next ih =>
    have hcount : (edge :: next).countP (fun e => e.head = id)
        = next.countP (fun e => e.head = id) + (if edge.head = id then 1 else 0) := by
      simp [List.countP_cons]
    rw [hcount]
    by_cases hc : edge.head = id
    · simp only [graph_indegree_chain, hc, if_true]
      have hpos : 0 < UINT_RANGE := by unfold UINT_RANGE; norm_num
      rw [ih ((result + 1) % UINT_RANGE) (Nat.mod_lt _ hpos), Nat.mod_add_mod]
      congr 1
      omega
    · simp only [graph_indegree_chain, hc, if_false, Nat.add_zero]
      exact ih result h

theorem graph_indegree_chain_lt (id : Nat) (chain : List edge_t) (result : Nat)
    (h : result < UINT_RANGE) : graph_indegree_chain id chain result < UINT_RANGE := by
  rw [graph_indegree_chain_mod id chain result h]
  exact Nat.mod_lt _ (by unfold UINT_RANGE; norm_num)

theorem edges_into_cons (l : adjacency_list_t) (ls : List adjacency_list_t) (id : Nat) :
    edges_into (l :: ls) id
      = l.first.countP (fun e => e.head = id) + edges_into ls id := by
  simp [edges_into, all_edges, List.countP_append]

theorem graph_indegree_loop_mod (graph : graph_t) (id : Nat)
    (pre suf : List adjacency_list_t) (result : Nat)
    (hls : graph.adjacency_lists = some (pre ++ suf)) (h : result < UINT_RANGE) :
    graph_indegree_loop graph id suf.length pre.length result
      = some ((result + edges_into suf id) % UINT_RANGE) := by
  induction suf generalizing pre result with
  | nil => simp [graph_indegree_loop, edges_into, all_edges, Nat.mod_eq_of_lt h]
  | cons l rest ih =>
    have hat : graph.list_at pre.length = some l := by
      simp only [graph_t.list_at, hls]
      rw [List.getElem?_append_right (Nat.le_refl _)]
      simp
    have hls2 : graph.adjacency_lists = some ((pre ++ [l]) ++ rest) := by
      simp [hls]
    have hstep := ih (pre ++ [l]) (graph_indegree_chain id l.first result) hls2
      (graph_indegree_chain_lt id l.first result h)
    simp only [List.length_append, List.length_singleton] at hstep
    simp only [List.length_cons, graph_indegree_loop, hat, hstep]
    rw [graph_indegree_chain_mod id l.first result h, Nat.mod_add_mod, edges_into_cons,
      Nat.add_assoc]

/-- What `graph_indegree` computes on any graph whose array holds `vertex_count`
lists: the number of edges into `id`, reduced modulo `UINT_RANGE`. -/
theorem graph_indegree_mod (graph : graph_t) (ls : List adjacency_list_t) (id : Nat)
    (hls : graph.adjacency_lists = some ls) (hlen : ls.length = graph.vertex_count)
    (hid : id < graph.vertex_count) :
    graph_indegree graph id = some (edges_into ls id % UINT_RANGE) := by
  have h := graph_indegree_loop_mod graph id [] ls 0 (by simpa using hls)
    (by unfold UINT_RANGE; norm_num)
  simp only [List.length_nil, Nat.zero_add] at h
  rw [hlen] at h
  simp only [graph_indegree, hid, if_true, h]

/-! ## Lemmas on the functions without a body -/

/-- A call of `graph_initialise` on a graph variable whose fields hold
`vertex_count = 0`, `edge_count = 7` and no list array returns false and writes
nothing: the variable is as it was, with its `edge_count` of 7 over no list. -/
theorem graph_initialise_does_not_establish_invariant :
    graph_initialise ⟨0, 7, none⟩ 5 = (false, ⟨0, 7, none⟩)
    ∧ ¬ edge_count_invariant (graph_initialise ⟨0, 7, none⟩ 5).2 := by
  decide

/-! ## Lemmas on `graph_to_dot` -/

theorem printf_d_eq_printf_u (x : Nat) (h : x < 2 ^ 31) : printf_d x = printf_u x := by
  have hx : x % UINT_RANGE = x := Nat.mod_eq_of_lt (by unfold UINT_RANGE; omega)
  unfold printf_d printf_u
  rw [hx, if_pos h]

theorem dot_edge_lines_append (a b : List edge_t) :
    dot_edge_lines (a ++ b) = dot_edge_lines a ++ dot_edge_lines b := by
  induction a with
  | nil => simp [dot_edge_lines]
  | cons e rest ih => simp [dot_edge_lines, ih, String.append_assoc]

theorem graph_to_dot_chain_small (chain : List edge_t) (out : String)
    (h : ∀ e ∈ chain, e.tail < 2 ^ 31 ∧ e.head < 2 ^ 31) :
    graph_to_dot_chain chain out = out ++ dot_edge_lines chain := by
  induction chain generalizing out with
  | nil => simp [graph_to_dot_chain, dot_edge_lines]
  | cons e rest ih =>
    have he := h e (List.mem_cons_self e rest)
    have hrest : ∀ x ∈ rest, x.tail < 2 ^ 31 ∧ x.head < 2 ^ 31 :=
      fun x hx => h x (List.mem_cons_of_mem e hx)
    simp only [graph_to_dot_chain, dot_edge_lines, ih _ hrest,
      printf_d_eq_printf_u _ he.1, printf_d_eq_printf_u _ he.2, String.append_assoc]

theorem all_edges_cons (l : adjacency_list_t) (ls : List adjacency_list_t) :
    all_edges (l :: ls) = l.first ++ all_edges ls := by
  simp [all_edges]

theorem graph_to_dot_loop_small (graph : graph_t) (pre suf : List adjacency_list_t)
    (out : String) (hls : graph.adjacency_lists = some (pre ++ suf))
    (h : ∀ e ∈ all_edges suf, e.tail < 2 ^ 31 ∧ e.head < 2 ^ 31) :
    graph_to_dot_loop graph suf.length pre.length out
      = some (out ++ dot_edge_lines (all_edges suf)) := by
  induction suf generalizing pre out with
  | nil => simp [graph_to_dot_loop, all_edges, dot_edge_lines]
  | cons l rest ih =>
    have hat : graph.list_at pre.length = some l := by
      simp only [graph_t.list_at, hls]
      rw [List.getElem?_append_right (Nat.le_refl _)]
      simp
    have hls2 : graph.adjacency_lists = some ((pre ++ [l]) ++ rest) := by
      simp [hls]
    rw [all_edges_cons] at h
    have hl : ∀ e ∈ l.first, e.tail < 2 ^ 31 ∧ e.head < 2 ^ 31 :=
      fun e he => h e (List.mem_append_left _ he)
    have hrest : ∀ e ∈ all_edges rest, e.tail < 2 ^ 31 ∧ e.head < 2 ^ 31 :=
      fun e he => h e (List.mem_append_right _ he)
    have hstep := ih (pre ++ [l]) (graph_to_dot_chain l.first out) hls2 hrest
    simp only [List.length_append, List.length_singleton] at hstep
    simp only [List.length_cons, graph_to_dot_loop, hat, hstep]
    rw [graph_to_dot_chain_small l.first out hl, all_edges_cons, dot_edge_lines_append,
      String.append_assoc]

/-- When every tail and head in the lists is below `2 ^ 31`, `graph_to_dot`
writes the text of its description. -/
theorem graph_to_dot_small (graph : graph_t) (ls : List adjacency_list_t)
    (hls : graph.adjacency_lists = some ls) (hlen : ls.length = graph.vertex_count)
    (h : ∀ e ∈ all_edges ls, e.tail < 2 ^ 31 ∧ e.head < 2 ^ 31) :
    graph_to_dot graph true = some (dot_text ls) := by
  have hl := graph_to_dot_loop_small graph [] ls "digraph \x7b\n" (by simpa using hls) h
  simp only [List.length_nil] at hl
  rw [hlen] at hl
  simp only [graph_to_dot, if_true, hl, dot_text]

/-! ## Lemmas on `graph_build_from_file` -/

/-- The triple of the file `2\n0 1 10\n`, followed by a newline, is passed to
`graph_connect` when `graph_initialise` succeeds. -/
theorem graph_build_from_file_connects_with_newline (g0 g1 : graph_t)
    (connect : graph_t → Nat → Nat → Nat → Bool × graph_t) :
    (graph_build_from_file_with (fun _ _ => (true, g1)) connect 2 g0
        (some "2\n0 1 10\n")).map (fun st => st.connect_calls)
      = some [(0, 1, 10)] := by
  rfl

/-- With the `graph_initialise` of graph.c the read loop is never entered:
whatever the file holds, no call of `graph_connect` is made and the graph is
the one passed in. -/
theorem graph_build_from_file_no_call (fuel : Nat) (graph : graph_t)
    (file : Option String) :
    ∃ st, graph_build_from_file fuel graph file = some st
      ∧ st.graph = graph ∧ st.connect_calls = [] ∧ st.stderr = "" := by
  unfold graph_build_from_file graph_build_from_file_with
  cases file with
  | none => exact ⟨_, rfl, rfl, rfl, rfl⟩
  | some content =>
    simp only [graph_initialise]
    split
    · split
      · exact ⟨_, rfl, rfl, rfl, rfl⟩
      · exact ⟨_, rfl, rfl, rfl, rfl⟩
    · exact ⟨_, rfl, rfl, rfl, rfl⟩

/-! ## The read loop on a file whose records all end in white space -/

theorem isdigit_not_isspace (c : Char) (h : isdigit c = true) : isspace c = false := by
  unfold isspace
  simp only [Bool.or_eq_false_iff, decide_eq_false_iff_not]
  refine ⟨⟨⟨⟨⟨?_, ?_⟩, ?_⟩, ?_⟩, ?_⟩, ?_⟩ <;>
    (rintro rfl; revert h; decide)

theorem isspace_not_isdigit (c : Char) (h : isspace c = true) : isdigit c = false := by
  cases hd : isdigit c with
  | false => rfl
  | true => rw [isdigit_not_isspace c hd] at h; exact absurd h (by decide)

theorem isdigit_not_sign (c : Char) (h : isdigit c = true) : c ≠ '+' ∧ c ≠ '-' := by
  constructor <;> (rintro rfl; revert h; decide)

theorem skip_space_append (eof : Bool) (ws rest : List Char)
    (h : ∀ c ∈ ws, isspace c = true) :
    skip_space eof (ws ++ rest) = skip_space eof rest := by
  induction ws with
  | nil => rfl
  | cons c ws ih =>
    have hc := h c (List.mem_cons_self c ws)
    simp only [List.cons_append, skip_space, hc, if_true]
    exact ih (fun x hx => h x (List.mem_cons_of_mem c hx))

theorem skip_space_numeral (eof : Bool) (ds rest : List Char) (h : is_numeral ds) :
    skip_space eof (ds ++ rest) = ⟨ds ++ rest, eof⟩ := by
  obtain ⟨hne, hd⟩ := h
  cases ds with
  | nil => exact absurd rfl hne
  | cons d ds =>
    have hs := isdigit_not_isspace d (hd d (List.mem_cons_self d ds))
    simp [skip_space, hs]

theorem scan_digits_append (eof : Bool) (ds : List Char) (c : Char) (rest : List Char)
    (acc : Nat) (hd : ∀ x ∈ ds, isdigit x = true) (hc : isdigit c = false) :
    scan_digits eof (ds ++ c :: rest) acc
      = (ds.foldl (fun a x => 10 * a + (x.toNat - '0'.toNat)) acc, ⟨c :: rest, eof⟩) := by
  induction ds generalizing acc with
  | nil => simp [scan_digits, hc]
  | cons d ds ih =>
    have h1 := hd d (List.mem_cons_self d ds)
    simp only [List.cons_append, scan_digits, h1, if_true, List.foldl_cons]
    exact ih _ (fun x hx => hd x (List.mem_cons_of_mem d hx))

/-- The conversion `%u` on a numeral that some white space may precede and a
character other than a digit follows: the numeral is read, the stream stays
in front of that character and the end-of-file indicator is untouched. -/
theorem scan_u_numeral (eof : Bool) (ws ds : List Char) (c : Char) (rest : List Char)
    (hw : ∀ x ∈ ws, isspace x = true) (hds : is_numeral ds) (hc : isdigit c = false) :
    scan_u ⟨ws ++ (ds ++ c :: rest), eof⟩
      = (.assigned (decimal_value ds % UINT_RANGE), ⟨c :: rest, eof⟩) := by
  unfold scan_u
  simp only [skip_space_append eof ws _ hw, skip_space_numeral eof ds _ hds]
  obtain ⟨hne, hd⟩ := hds
  cases ds with
  | nil => exact absurd rfl hne
  | cons d ds =>
    have h1 := hd d (List.mem_cons_self d ds)
    obtain ⟨hplus, hminus⟩ := isdigit_not_sign d h1
    have hscan := scan_digits_append eof (d :: ds) c rest 0 hd hc
    simp only [List.cons_append] at hscan ⊢
    simp only [hplus, hminus, if_false, scan_u_digits, h1, if_true, hscan, decimal_value]
    rfl

theorem is_blank_cons (ws : List Char) (h : is_blank ws) (rest : List Char) :
    ∃ c r, ws ++ rest = c :: r ∧ isspace c = true := by
  obtain ⟨hne, hw⟩ := h
  cases ws with
  | nil => exact absurd rfl hne
  | cons c ws => exact ⟨c, ws ++ rest, rfl, hw c (List.mem_cons_self c ws)⟩

/-- One `fscanf(fp, "%u %u %u", ...)` on a well-formed record that white space
follows: the return value is 3, the three numbers are assigned, and the
end-of-file indicator stays clear. -/
theorem fscanf_u_u_u_record (t : triple_text) (ht : t.well_formed) (c : Char)
    (rest : List Char) (hc : isspace c = true) :
    fscanf_u_u_u ⟨t.chars ++ c :: rest, false⟩
      = ⟨3, [decimal_value t.tail % UINT_RANGE, decimal_value t.head % UINT_RANGE,
          decimal_value t.weight % UINT_RANGE], ⟨c :: rest, false⟩⟩ := by
  obtain ⟨h1, h2, h3, h4, h5, h6⟩ := ht
  obtain ⟨c3, r3, e3, s3⟩ :=
    is_blank_cons t.sep_weight h5 (t.weight ++ c :: rest)
  obtain ⟨c2, r2, e2, s2⟩ :=
    is_blank_cons t.sep_head h3 (t.head ++ (t.sep_weight ++ (t.weight ++ c :: rest)))
  have a1 := scan_u_numeral false t.sep_tail t.tail c2 r2 h1.2 h2 (isspace_not_isdigit c2 s2)
  have b2 : skip_space false
        (t.sep_head ++ (t.head ++ (t.sep_weight ++ (t.weight ++ c :: rest))))
      = ⟨t.head ++ (t.sep_weight ++ (t.weight ++ c :: rest)), false⟩ := by
    rw [skip_space_append false _ _ h3.2, skip_space_numeral false _ _ h4]
  have a2 := scan_u_numeral false [] t.head c3 r3 (by simp) h4 (isspace_not_isdigit c3 s3)
  have b3 : skip_space false (t.sep_weight ++ (t.weight ++ c :: rest))
      = ⟨t.weight ++ c :: rest, false⟩ := by
    rw [skip_space_append false _ _ h5.2, skip_space_numeral false _ _ h6]
  have a3 := scan_u_numeral false [] t.weight c rest (by simp) h6 (isspace_not_isdigit c hc)
  rw [← e2] at a1
  rw [← e3] at a2
  simp only [List.nil_append] at a2 a3
  simp only [fscanf_u_u_u, triple_text.chars, List.append_assoc, a1, b2, a2, b3, a3]

theorem fscanf_u_u_u_blank (ws : List Char) (h : ∀ c ∈ ws, isspace c = true) :
    fscanf_u_u_u ⟨ws, false⟩ = ⟨EOF, [], ⟨[], true⟩⟩ := by
  have hs : skip_space false ws = ⟨[], true⟩ := by
    have := skip_space_append false ws [] h
    simpa [skip_space] using this
  simp [fscanf_u_u_u, scan_u, hs]

theorem records_chars_cons (t : triple_text) (ts : List triple_text) :
    records_chars (t :: ts) = t.chars ++ records_chars ts := by
  simp [records_chars]

/-- One iteration of the read loop on a well-formed record that white space
follows: the record is passed to `connect` and the stream stands after it. -/
theorem build_step_record (connect : graph_t → Nat → Nat → Nat → Bool × graph_t)
    (st : build_state) (t : triple_text) (ht : t.well_formed) (c : Char)
    (rest : List Char) (hc : isspace c = true)
    (hfp : st.fp = ⟨t.chars ++ c :: rest, false⟩) :
    (build_step connect st).fp = ⟨c :: rest, false⟩
      ∧ (build_step connect st).connect_calls = st.connect_calls ++ [t.values] := by
  unfold build_step
  rw [hfp, fscanf_u_u_u_record t ht c rest hc]
  simp [feof, triple_text.values]

theorem records_then_cons (ts : List triple_text) (final : List Char)
    (hts : ∀ t ∈ ts, t.well_formed)
    (hfinal : ∃ c r, final = c :: r ∧ isspace c = true) :
    ∃ c r, records_chars ts ++ final = c :: r ∧ isspace c = true := by
  cases ts with
  | nil => simpa [records_chars] using hfinal
  | cons t ts =>
    have ht := (hts t (List.mem_cons_self t ts)).1
    rw [records_chars_cons, triple_text.chars]
    simp only [List.append_assoc]
    exact is_blank_cons t.sep_tail ht _

/-- The read loop on well-formed records followed by a text `final` that
starts with white space and on which one more iteration sets the end-of-file
indicator without a call of `connect`: the loop ends within one iteration per
record and one more, and the calls of `connect` are the records, once each and
in file order. -/
theorem build_loop_records_then (connect : graph_t → Nat → Nat → Nat → Bool × graph_t)
    (ts : List triple_text) (final : List Char)
    (hts : ∀ t ∈ ts, t.well_formed)
    (hfinal : ∃ c r, final = c :: r ∧ isspace c = true)
    (hlast : ∀ st : build_state, st.fp = ⟨final, false⟩ →
      build_step connect st = { st with fp := ⟨[], true⟩ })
    (st : build_state) (hfp : st.fp = ⟨records_chars ts ++ final, false⟩) :
    ∃ st', build_loop connect (ts.length + 1) st = some st'
      ∧ st'.connect_calls = st.connect_calls ++ ts.map triple_text.values
      ∧ st'.fp = ⟨[], true⟩ := by
  induction ts generalizing st with
  | nil =>
    have hstep := hlast st (by simpa [records_chars] using hfp)
    refine ⟨{ st with fp := ⟨[], true⟩ }, ?_, by simp, rfl⟩
    simp [build_loop, feof, hfp, hstep]
  | cons t ts ih =>
    have ht := hts t (List.mem_cons_self t ts)
    have hrest : ∀ x ∈ ts, x.well_formed := fun x hx => hts x (List.mem_cons_of_mem t hx)
    obtain ⟨c, r, hcr, hc⟩ := records_then_cons ts final hrest hfinal
    have hfp2 : st.fp = ⟨t.chars ++ c :: r, false⟩ := by
      rw [hfp, records_chars_cons, List.append_assoc, hcr]
    obtain ⟨s1, s2⟩ := build_step_record connect st t ht c r hc hfp2
    obtain ⟨st', h1, h2, h3⟩ := ih hrest (build_step connect st) (by rw [s1, hcr])
    refine ⟨st', ?_, ?_, h3⟩
    · have hne : feof st.fp = false := by rw [hfp]; rfl
      simp only [List.length_cons, build_loop, hne, Bool.false_eq_true, if_false]
      exact h1
    · rw [h2, s2]; simp

/-- The read loop on well-formed records followed by white space up to the end
of the input: every record is passed to `connect`, once each and in file
order. -/
theorem build_loop_records (connect : graph_t → Nat → Nat → Nat → Bool × graph_t)
    (ts : List triple_text) (trailing : List Char)
    (hts : ∀ t ∈ ts, t.well_formed) (htr : is_blank trailing) (st : build_state)
    (hfp : st.fp = ⟨records_chars ts ++ trailing, false⟩) :
    ∃ st', build_loop connect (ts.length + 1) st = some st'
      ∧ st'.connect_calls = st.connect_calls ++ ts.map triple_text.values
      ∧ st'.fp = ⟨[], true⟩ := by
  refine build_loop_records_then connect ts trailing hts ?_ ?_ st hfp
  · simpa using is_blank_cons trailing htr []
  · intro s hs
    unfold build_step
    rw [hs, fscanf_u_u_u_blank trailing htr.2]
    simp [feof]

theorem scan_digits_end (eof : Bool) (ds : List Char) (acc : Nat)
    (hd : ∀ x ∈ ds, isdigit x = true) :
    scan_digits eof ds acc
      = (ds.foldl (fun a x => 10 * a + (x.toNat - '0'.toNat)) acc, ⟨[], true⟩) := by
  induction ds generalizing acc with
  | nil => simp [scan_digits]
  | cons d ds ih =>
    have h1 := hd d (List.mem_cons_self d ds)
    simp only [scan_digits, h1, if_true, List.foldl_cons]
    exact ih _ (fun x hx => hd x (List.mem_cons_of_mem d hx))

/-- The conversion `%u` on a numeral that ends the input: the numeral is read
and the end-of-file indicator is set. -/
theorem scan_u_numeral_end (eof : Bool) (ws ds : List Char)
    (hw : ∀ x ∈ ws, isspace x = true) (hds : is_numeral ds) :
    scan_u ⟨ws ++ ds, eof⟩
      = (.assigned (decimal_value ds % UINT_RANGE), ⟨[], true⟩) := by
  unfold scan_u
  have hskip := skip_space_numeral eof ds [] hds
  simp only [List.append_nil] at hskip
  simp only [skip_space_append eof ws _ hw, hskip]
  obtain ⟨hne, hd⟩ := hds
  cases ds with
  | nil => exact absurd rfl hne
  | cons d ds =>
    have h1 := hd d (List.mem_cons_self d ds)
    obtain ⟨hplus, hminus⟩ := isdigit_not_sign d h1
    have hscan := scan_digits_end eof (d :: ds) 0 hd
    simp only [hplus, hminus, if_false, scan_u_digits, h1, if_true, hscan, decimal_value]
    rfl

/-- One `fscanf(fp, "%u %u %u", ...)` on a well-formed record that ends the
input: the return value is 3 and the three numbers are assigned, but the
end-of-file indicator is set. -/
theorem fscanf_u_u_u_record_end (t : triple_text) (ht : t.well_formed) :
    fscanf_u_u_u ⟨t.chars, false⟩
      = ⟨3, [decimal_value t.tail % UINT_RANGE, decimal_value t.head % UINT_RANGE,
          decimal_value t.weight % UINT_RANGE], ⟨[], true⟩⟩ := by
  obtain ⟨h1, h2, h3, h4, h5, h6⟩ := ht
  obtain ⟨c3, r3, e3, s3⟩ := is_blank_cons t.sep_weight h5 t.weight
  obtain ⟨c2, r2, e2, s2⟩ :=
    is_blank_cons t.sep_head h3 (t.head ++ (t.sep_weight ++ t.weight))
  have a1 := scan_u_numeral false t.sep_tail t.tail c2 r2 h1.2 h2 (isspace_not_isdigit c2 s2)
  have b2 : skip_space false (t.sep_head ++ (t.head ++ (t.sep_weight ++ t.weight)))
      = ⟨t.head ++ (t.sep_weight ++ t.weight), false⟩ := by
    rw [skip_space_append false _ _ h3.2, skip_space_numeral false _ _ h4]
  have a2 := scan_u_numeral false [] t.head c3 r3 (by simp) h4 (isspace_not_isdigit c3 s3)
  have b3 : skip_space false (t.sep_weight ++ t.weight) = ⟨t.weight, false⟩ := by
    have := skip_space_numeral false t.weight [] h6
    simp only [List.append_nil] at this
    rw [skip_space_append false _ _ h5.2, this]
  have a3 := scan_u_numeral_end false [] t.weight (by simp) h6
  rw [← e2] at a1
  rw [← e3] at a2
  simp only [List.nil_append] at a2 a3
  simp only [fscanf_u_u_u, triple_text.chars, a1, b2, a2, b3, a3]

/-- The read loop on well-formed records the last of which ends the input: the
loop ends, and the calls of `connect` are the records before the last one; the
last record is read by `fscanf` and not passed on. -/
theorem build_loop_last_record_dropped
    (connect : graph_t → Nat → Nat → Nat → Bool × graph_t)
    (ts : List triple_text) (last : triple_text)
    (hts : ∀ t ∈ ts, t.well_formed) (hlast : last.well_formed) (st : build_state)
    (hfp : st.fp = ⟨records_chars ts ++ last.chars, false⟩) :
    ∃ st', build_loop connect (ts.length + 1) st = some st'
      ∧ st'.connect_calls = st.connect_calls ++ ts.map triple_text.values
      ∧ st'.fp = ⟨[], true⟩ := by
  refine build_loop_records_then connect ts last.chars hts ?_ ?_ st hfp
  · unfold triple_text.chars
    exact is_blank_cons last.sep_tail hlast.1 _
  · intro s hs
    unfold build_step
    rw [hs, fscanf_u_u_u_record_end last hlast]
    simp [feof]

/-- On a file that starts with a numeral followed by white space, and with an
`initialise` that succeeds, `graph_build_from_file` runs the read loop on the
text after the numeral. -/
theorem graph_build_from_file_with_enters_loop
    (initialise : graph_t → Nat → Bool × graph_t)
    (connect : graph_t → Nat → Nat → Nat → Bool × graph_t)
    (fuel : Nat) (g0 : graph_t) (count rest : List Char)
    (hcount : is_numeral count) (hrest : ∃ c r, rest = c :: r ∧ isspace c = true)
    (hinit : (initialise g0 (decimal_value count % UINT_RANGE)).1 = true) :
    graph_build_from_file_with initialise connect fuel g0 (some (String.mk (count ++ rest)))
      = build_loop connect fuel
          ⟨(initialise g0 (decimal_value count % UINT_RANGE)).2, ⟨rest, false⟩, [], ""⟩ := by
  obtain ⟨c, r, hcr, hc⟩ := hrest
  have hscan := scan_u_numeral false [] count c r (by simp) hcount
    (isspace_not_isdigit c hc)
  simp only [List.nil_append] at hscan
  have hf : fscanf_u (fopen_r (String.mk (count ++ rest)))
      = ⟨1, [decimal_value count % UINT_RANGE], ⟨rest, false⟩⟩ := by
    simp only [fscanf_u, fopen_r, String.toList, hcr, hscan]
  simp only [graph_build_from_file_with, hf, hinit, if_true]

/-- The whole of `graph_build_from_file` over callees: when the file is a
numeral, then well-formed records, then white space up to the end of the
input, and `initialise` succeeds, every record is passed to `connect`, once
each and in file order. -/
theorem graph_build_from_file_passes_records
    (initialise : graph_t → Nat → Bool × graph_t)
    (connect : graph_t → Nat → Nat → Nat → Bool × graph_t)
    (g0 : graph_t) (count : List Char) (ts : List triple_text) (trailing : List Char)
    (hcount : is_numeral count) (hts : ∀ t ∈ ts, t.well_formed)
    (htr : is_blank trailing)
    (hinit : (initialise g0 (decimal_value count % UINT_RANGE)).1 = true) :
    ∃ st, graph_build_from_file_with initialise connect (ts.length + 1) g0
        (some (String.mk (count ++ (records_chars ts ++ trailing)))) = some st
      ∧ st.connect_calls = ts.map triple_text.values := by
  have hstart := records_then_cons ts trailing hts
    (by simpa using is_blank_cons trailing htr [])
  rw [graph_build_from_file_with_enters_loop initialise connect _ g0 count _ hcount hstart
    hinit]
  obtain ⟨st', h1, h2, _⟩ := build_loop_records connect ts trailing hts htr
    ⟨(initialise g0 (decimal_value count % UINT_RANGE)).2,
      ⟨records_chars ts ++ trailing, false⟩, [], ""⟩ rfl
  exact ⟨st', h1, by simpa using h2⟩

/-- The whole of `graph_build_from_file` over callees: when the last record of
the file ends the input (no character follows its last digit), that record is
not passed to `connect`; the calls are the records before it. -/
theorem graph_build_from_file_last_record_dropped
    (initialise : graph_t → Nat → Bool × graph_t)
    (connect : graph_t → Nat → Nat → Nat → Bool × graph_t)
    (g0 : graph_t) (count : List Char) (ts : List triple_text) (last : triple_text)
    (hcount : is_numeral count) (hts : ∀ t ∈ ts, t.well_formed)
    (hlast : last.well_formed)
    (hinit : (initialise g0 (decimal_value count % UINT_RANGE)).1 = true) :
    ∃ st, graph_build_from_file_with initialise connect (ts.length + 1) g0
        (some (String.mk (count ++ (records_chars ts ++ last.chars)))) = some st
      ∧ st.connect_calls = ts.map triple_text.values := by
  have hstart := records_then_cons ts last.chars hts
    (by unfold triple_text.chars; exact is_blank_cons last.sep_tail hlast.1 _)
  rw [graph_build_from_file_with_enters_loop initialise connect _ g0 count _ hcount hstart
    hinit]
  obtain ⟨st', h1, h2, _⟩ := build_loop_last_record_dropped connect ts last hts hlast
    ⟨(initialise g0 (decimal_value count % UINT_RANGE)).2,
      ⟨records_chars ts ++ last.chars, false⟩, [], ""⟩ rfl
  exact ⟨st', h1, by simpa using h2⟩

/-! ## The read loop in front of a character that starts no number -/

/-- In front of a character that is neither white space, nor a digit, nor a
sign, `fscanf(fp, "%u %u %u", ...)` returns 0 and reads nothing: the character
stays unread and the end-of-file indicator stays clear. -/
theorem fscanf_u_u_u_stuck (c : Char) (rest : List Char) (hs : isspace c = false)
    (hd : isdigit c = false) (hp : c ≠ '+') (hm : c ≠ '-') :
    fscanf_u_u_u ⟨c :: rest, false⟩ = ⟨0, [], ⟨c :: rest, false⟩⟩ := by
  simp [fscanf_u_u_u, scan_u, skip_space, scan_u_digits, hs, hd, hp, hm]

/-- One iteration of the read loop in front of such a character changes
nothing. -/
theorem build_step_stuck (connect : graph_t → Nat → Nat → Nat → Bool × graph_t)
    (st : build_state) (c : Char) (rest : List Char) (hs : isspace c = false)
    (hd : isdigit c = false) (hp : c ≠ '+') (hm : c ≠ '-')
    (hfp : st.fp = ⟨c :: rest, false⟩) :
    build_step connect st = st := by
  unfold build_step
  rw [hfp, fscanf_u_u_u_stuck c rest hs hd hp hm]
  cases st
  simp_all [feof]

/-- The read loop in front of such a character does not end, however many
iterations it is given. -/
theorem build_loop_stuck (connect : graph_t → Nat → Nat → Nat → Bool × graph_t)
    (st : build_state) (c : Char) (rest : List Char) (hs : isspace c = false)
    (hd : isdigit c = false) (hp : c ≠ '+') (hm : c ≠ '-')
    (hfp : st.fp = ⟨c :: rest, false⟩) (fuel : Nat) :
    build_loop connect fuel st = none := by
  have hne : feof st.fp = false := by rw [hfp]; rfl
  induction fuel with
  | zero => simp [build_loop, hne]
  | succ fuel ih =>
    simp only [build_loop, hne, Bool.false_eq_true, if_false]
    rw [build_step_stuck connect st c rest hs hd hp hm hfp]
    exact ih

/-! ## The message of the read loop -/

/-- One iteration of the read loop on a well-formed record that white space
follows: the message `Failed to connect: <tail>-><head>` is appended to
`stderr` exactly when `connect` returns true for the record. -/
theorem build_step_record_stderr (connect : graph_t → Nat → Nat → Nat → Bool × graph_t)
    (st : build_state) (t : triple_text) (ht : t.well_formed) (c : Char)
    (rest : List Char) (hc : isspace c = true)
    (hfp : st.fp = ⟨t.chars ++ c :: rest, false⟩) :
    (build_step connect st).stderr
      = if (connect st.graph t.values.1 t.values.2.1 t.values.2.2).1 then
          st.stderr ++ "Failed to connect: " ++ printf_d t.values.1 ++ "->"
            ++ printf_d t.values.2.1 ++ "\n"
        else st.stderr := by
  unfold build_step
  rw [hfp, fscanf_u_u_u_record t ht c rest hc]
  simp [feof, triple_text.values]

/-! ## Lemmas on the sum of the in-degrees -/

theorem countP_head_lt_succ (es : List edge_t) (n : Nat) :
    es.countP (fun e => e.head < n + 1)
      = es.countP (fun e => e.head < n) + es.countP (fun e => e.head = n) := by
  induction es with
  | nil => rfl
  | cons e rest ih =>
    simp only [List.countP_cons, ih]
    by_cases h1 : e.head < n
    · have h2 : e.head < n + 1 := by omega
      have h3 : ¬ e.head = n := by omega
      simp [h1, h2, h3]
      omega
    · by_cases h3 : e.head = n
      · have h2 : e.head < n + 1 := by omega
        simp [h1, h2, h3]
        omega
      · have h2 : ¬ e.head < n + 1 := by omega
        simp [h1, h2, h3]

theorem edges_into_le (ls : List adjacency_list_t) (id bound : Nat) (h : id < bound) :
    edges_into ls id ≤ (all_edges ls).countP (fun e => e.head < bound) := by
  unfold edges_into
  apply List.countP_mono_left
  intro e _ he
  simp only [decide_eq_true_eq] at he ⊢
  omega

/-- The partial sums of the in-degrees on a graph whose array holds
`vertex_count` lists and whose edges into its vertices number less than
`UINT_RANGE`. -/
theorem indegree_sum_eq (graph : graph_t) (ls : List adjacency_list_t)
    (hls : graph.adjacency_lists = some ls) (hlen : ls.length = graph.vertex_count)
    (hfit : (all_edges ls).countP (fun e => e.head < graph.vertex_count) < UINT_RANGE)
    (n : Nat) (hn : n ≤ graph.vertex_count) :
    indegree_sum graph n = some ((all_edges ls).countP (fun e => e.head < n)) := by
  induction n with
  | zero => simp [indegree_sum]
  | succ n ih =>
    have hid : n < graph.vertex_count := by omega
    have hdeg := graph_indegree_mod graph ls n hls hlen hid
    have hle := edges_into_le ls n graph.vertex_count hid
    rw [Nat.mod_eq_of_lt (by omega)] at hdeg
    simp only [indegree_sum, ih (by omega), hdeg, countP_head_lt_succ]
    rfl

/-! ## Claims -/

/-- C1: on a graph whose `adjacency_lists` array holds `vertex_count` chains,
and for `id < vertex_count`, `graph_indegree` returns the number of edges, over
all the lists, whose head is `id` (tail and weight play no part, every
duplicate counts), that number being one an `unsigned` can hold. -/
theorem graph_indegree_counts_heads (graph : graph_t) (ls : List adjacency_list_t)
    (id : Nat)
    (hls : graph.adjacency_lists = some ls) (hlen : ls.length = graph.vertex_count)
    (hid : id < graph.vertex_count)
    (hfit : ((ls.map (fun l => l.first)).flatten.countP (fun e => e.head = id))
      < UINT_RANGE) :
    graph_indegree graph id
      = some ((ls.map (fun l => l.first)).flatten.countP (fun e => e.head = id)) := by
  have h := graph_indegree_mod graph ls id hls hlen hid
  unfold edges_into all_edges at h
  rw [h, Nat.mod_eq_of_lt hfit]

/-- C1, at a graph of three vertices with a duplicated edge into vertex 1, a
self-loop on vertex 1 and an edge into vertex 2: the in-degree of 1 is 4. -/
theorem graph_indegree_counts_heads_witness :
    graph_indegree
      ⟨3, 5, some [⟨[⟨0, 1, 7⟩, ⟨0, 1, 9⟩, ⟨0, 2, 0⟩]⟩, ⟨[⟨1, 1, 3⟩]⟩, ⟨[⟨2, 1, 0⟩]⟩]⟩ 1
      = some 4 :=
  graph_indegree_counts_heads
    ⟨3, 5, some [⟨[⟨0, 1, 7⟩, ⟨0, 1, 9⟩, ⟨0, 2, 0⟩]⟩, ⟨[⟨1, 1, 3⟩]⟩, ⟨[⟨2, 1, 0⟩]⟩]⟩
    [⟨[⟨0, 1, 7⟩, ⟨0, 1, 9⟩, ⟨0, 2, 0⟩]⟩, ⟨[⟨1, 1, 3⟩]⟩, ⟨[⟨2, 1, 0⟩]⟩] 1
    rfl rfl (by decide) (by decide)

/-- C2: on the graph of `test_graph_connect` (two vertices, two empty lists,
no edge) the call `graph_connect(&graph, 0, 1, 1)` returns false and the graph
is as before: list 0 is still empty and `edge_count` is still 0. -/
theorem graph_connect_valid_vertices_fails :
    graph_connect ⟨2, 0, some [⟨[]⟩, ⟨[]⟩]⟩ 0 1 1 = (false, ⟨2, 0, some [⟨[]⟩, ⟨[]⟩]⟩)
    ∧ (graph_connect ⟨2, 0, some [⟨[]⟩, ⟨[]⟩]⟩ 0 1 1).2.list_at 0 = some ⟨[]⟩
    ∧ (graph_connect ⟨2, 0, some [⟨[]⟩, ⟨[]⟩]⟩ 0 1 1).2.edge_count = 0 := by
  decide

/-- C3: when `tail >= vertex_count` or `head >= vertex_count`, `graph_connect`
returns false and the graph after the call is the graph before it
(`vertex_count`, `edge_count` and all adjacency lists). -/
theorem graph_connect_out_of_range (graph : graph_t) (tail head weight : Nat)
    (h : graph.vertex_count ≤ tail ∨ graph.vertex_count ≤ head) :
    graph_connect graph tail head weight = (false, graph) := by
  cases h <;> rfl

/-- C3, on a graph of two vertices holding the edge 0->1: a tail of 2 and a
head of 5 are both refused. -/
theorem graph_connect_out_of_range_witness :
    graph_connect ⟨2, 1, some [⟨[⟨0, 1, 4⟩]⟩, ⟨[]⟩]⟩ 2 0 9
        = (false, ⟨2, 1, some [⟨[⟨0, 1, 4⟩]⟩, ⟨[]⟩]⟩)
    ∧ graph_connect ⟨2, 1, some [⟨[⟨0, 1, 4⟩]⟩, ⟨[]⟩]⟩ 1 5 9
        = (false, ⟨2, 1, some [⟨[⟨0, 1, 4⟩]⟩, ⟨[]⟩]⟩) :=
  ⟨graph_connect_out_of_range ⟨2, 1, some [⟨[⟨0, 1, 4⟩]⟩, ⟨[]⟩]⟩ 2 0 9
      (Or.inl (by decide)),
   graph_connect_out_of_range ⟨2, 1, some [⟨[⟨0, 1, 4⟩]⟩, ⟨[]⟩]⟩ 1 5 9
      (Or.inr (by decide))⟩

/-- C4: on the graph of two vertices whose list 0 holds the single edge 0->1,
after `graph_disconnect(&graph, 0, 1)` list 0 still holds that edge and
`edge_count` is still 1. -/
theorem graph_disconnect_keeps_matching_edge :
    (graph_disconnect ⟨2, 1, some [⟨[⟨0, 1, 1⟩]⟩, ⟨[]⟩]⟩ 0 1).list_at 0
        = some ⟨[⟨0, 1, 1⟩]⟩
    ∧ (graph_disconnect ⟨2, 1, some [⟨[⟨0, 1, 1⟩]⟩, ⟨[]⟩]⟩ 0 1).edge_count = 1 := by
  decide

/-- C6: for the graph of one vertex whose list holds the edge with tail 0 and
head 2147483648, `graph_to_dot` writes the edge line `0 -> -2147483648`, which
is not the line `0 -> 2147483648` of the decimal values. -/
theorem graph_to_dot_large_head_negative :
    graph_to_dot ⟨1, 1, some [⟨[⟨0, 2147483648, 1⟩]⟩]⟩ true
        = some "digraph \x7b\n0 -> -2147483648\n\x7d\n"
    ∧ dot_text [⟨[⟨0, 2147483648, 1⟩]⟩] = "digraph \x7b\n0 -> 2147483648\n\x7d\n"
    ∧ graph_to_dot ⟨1, 1, some [⟨[⟨0, 2147483648, 1⟩]⟩]⟩ true
        ≠ some (dot_text [⟨[⟨0, 2147483648, 1⟩]⟩]) := by
  decide

/-- C7: on the graph of `test_graph_outdegree` (two vertices, list 0 holding
the single edge 0->1) `graph_outdegree(&graph, 0)` returns 0, while list 0
holds one edge. -/
theorem graph_outdegree_of_test_graph :
    graph_outdegree ⟨2, 1, some [⟨[⟨0, 1, 1⟩]⟩, ⟨[]⟩]⟩ 0 = 0
    ∧ ((⟨2, 1, some [⟨[⟨0, 1, 1⟩]⟩, ⟨[]⟩]⟩ : graph_t).list_at 0).map
        (fun l => l.first.length) = some 1 := by
  decide

/-- C8: for `id >= vertex_count` both `graph_indegree` and `graph_outdegree`
return 0, whatever the adjacency lists hold. -/
theorem degrees_zero_out_of_range (graph : graph_t) (id : Nat)
    (hid : graph.vertex_count ≤ id) :
    graph_indegree graph id = some 0 ∧ graph_outdegree graph id = 0 := by
  refine ⟨?_, rfl⟩
  unfold graph_indegree
  rw [if_neg (Nat.not_lt.mpr hid)]

/-- C8, on a graph of two vertices whose lists hold edges with head 2 and
head 7: the in-degree and out-degree of 2 and of 7 are 0. -/
theorem degrees_zero_out_of_range_witness :
    (graph_indegree ⟨2, 3, some [⟨[⟨0, 2, 1⟩, ⟨0, 7, 1⟩]⟩, ⟨[⟨1, 2, 1⟩]⟩]⟩ 2 = some 0
      ∧ graph_outdegree ⟨2, 3, some [⟨[⟨0, 2, 1⟩, ⟨0, 7, 1⟩]⟩, ⟨[⟨1, 2, 1⟩]⟩]⟩ 2 = 0)
    ∧ (graph_indegree ⟨2, 3, some [⟨[⟨0, 2, 1⟩, ⟨0, 7, 1⟩]⟩, ⟨[⟨1, 2, 1⟩]⟩]⟩ 7 = some 0
      ∧ graph_outdegree ⟨2, 3, some [⟨[⟨0, 2, 1⟩, ⟨0, 7, 1⟩]⟩, ⟨[⟨1, 2, 1⟩]⟩]⟩ 7 = 0) :=
  ⟨degrees_zero_out_of_range
      ⟨2, 3, some [⟨[⟨0, 2, 1⟩, ⟨0, 7, 1⟩]⟩, ⟨[⟨1, 2, 1⟩]⟩]⟩ 2 (by decide),
   degrees_zero_out_of_range
      ⟨2, 3, some [⟨[⟨0, 2, 1⟩, ⟨0, 7, 1⟩]⟩, ⟨[⟨1, 2, 1⟩]⟩]⟩ 7 (by decide)⟩

/-- C9: for the file content `2\n0 1 10` (one triple, end of input right after
its last digit) and a `graph_initialise` that succeeds with any graph `g1`, the
read loop ends after one iteration without a call of `graph_connect`, whatever
`graph_connect` is: the triple `0 1 10` is read by `fscanf` and dropped. -/
theorem graph_build_from_file_drops_last_triple (g0 g1 : graph_t)
    (connect : graph_t → Nat → Nat → Nat → Bool × graph_t) :
    fscanf_u_u_u ⟨['\n', '0', ' ', '1', ' ', '1', '0'], false⟩
        = ⟨3, [0, 1, 10], ⟨[], true⟩⟩
    ∧ graph_build_from_file_with (fun _ _ => (true, g1)) connect 1 g0
        (some "2\n0 1 10") = some ⟨g1, ⟨[], true⟩, [], ""⟩ := by
  exact ⟨by decide, rfl⟩

/-- C10: `graph_initialise(&graph, 5)` on a graph variable whose fields are 0
and NULL returns false and leaves `vertex_count` at 0. -/
theorem graph_initialise_five_fails :
    (graph_initialise ⟨0, 0, none⟩ 5).1 = false
    ∧ (graph_initialise ⟨0, 0, none⟩ 5).2.vertex_count = 0 := by
  decide

/-- C11: on a graph of two vertices whose list 0 holds the edge 0->1,
`graph_release` leaves everything in place: `vertex_count` is still 2,
`edge_count` still 1 and the array with its edge is still there. -/
theorem graph_release_keeps_graph :
    graph_release ⟨2, 1, some [⟨[⟨0, 1, 1⟩]⟩, ⟨[]⟩]⟩
        = ⟨2, 1, some [⟨[⟨0, 1, 1⟩]⟩, ⟨[]⟩]⟩
    ∧ (graph_release ⟨2, 1, some [⟨[⟨0, 1, 1⟩]⟩, ⟨[]⟩]⟩).vertex_count ≠ 0
    ∧ (graph_release ⟨2, 1, some [⟨[⟨0, 1, 1⟩]⟩, ⟨[]⟩]⟩).edge_count ≠ 0
    ∧ (graph_release ⟨2, 1, some [⟨[⟨0, 1, 1⟩]⟩, ⟨[]⟩]⟩).adjacency_lists ≠ none := by
  decide

/-- C12: on the list of `test_list_prepend` (one edge with all fields 0) and a
second such edge, `list_prepend` leaves the list with its one edge instead of
the two edges, the new one first. -/
theorem list_prepend_keeps_list :
    (list_prepend ⟨[⟨0, 0, 0⟩]⟩ ⟨0, 0, 0⟩).first = [⟨0, 0, 0⟩]
    ∧ (list_prepend ⟨[⟨0, 0, 0⟩]⟩ ⟨0, 0, 0⟩).first ≠ [⟨0, 0, 0⟩, ⟨0, 0, 0⟩]
    ∧ (list_prepend ⟨[⟨0, 0, 0⟩]⟩ ⟨0, 0, 0⟩).first.length = 1
    ∧ list_size (list_prepend ⟨[⟨0, 0, 0⟩]⟩ ⟨0, 0, 0⟩) = list_size ⟨[⟨0, 0, 0⟩]⟩ := by
  decide

/-- C13: on the list of `test_list_contains`, which holds the single edge 0->1,
`list_contains(&list, 0, 1)` returns false although that edge has tail 0 and
head 1. -/
theorem list_contains_misses_edge :
    list_contains ⟨[⟨0, 1, 0⟩]⟩ 0 1 = false
    ∧ (∃ e ∈ (⟨[⟨0, 1, 0⟩]⟩ : adjacency_list_t).first, e.tail = 0 ∧ e.head = 1) := by
  decide

/-- C14: on the list of `test_list_size`, whose first edge has no successor,
`list_size` returns 0 although the chain holds one edge. -/
theorem list_size_of_single_edge :
    list_size ⟨[⟨1, 2, 1⟩]⟩ = 0
    ∧ (⟨[⟨1, 2, 1⟩]⟩ : adjacency_list_t).first.length = 1 := by
  decide

/-- C15: on the empty list of `test_list_is_empty` (first == NULL)
`list_is_empty` returns false, and it differs from `list_size(list) == 0`. -/
theorem list_is_empty_of_empty_list :
    list_is_empty ⟨[]⟩ = false
    ∧ (⟨[]⟩ : adjacency_list_t).first = []
    ∧ list_is_empty ⟨[]⟩ ≠ decide (list_size ⟨[]⟩ = 0) := by
  decide

/-- C16: for the edge of `test_edge_to_string` (tail 10, head 20, weight 30) and
a buffer of 20 characters, `edge_to_string` stores the empty string, not
`10 -> 20 (30)`; for tail 2, head 15, weight 7 it stores the empty string as
well, not ` 2 -> 15 (07)`. -/
theorem edge_to_string_stores_empty :
    edge_to_string ⟨10, 20, 30⟩ 20 = some ""
    ∧ edge_to_string ⟨10, 20, 30⟩ 20 ≠ some "10 -> 20 (30)"
    ∧ edge_to_string ⟨2, 15, 7⟩ 14 = some ""
    ∧ edge_to_string ⟨2, 15, 7⟩ 14 ≠ some " 2 -> 15 (07)" := by
  decide

/-- C17: on the graph of `test_graph_print` (two vertices, the single edge 0->1
of weight 10) `graph_print` writes nothing, not the four lines the test
compares with. -/
theorem graph_print_writes_nothing :
    graph_print ⟨2, 1, some [⟨[⟨0, 1, 10⟩]⟩, ⟨[]⟩]⟩ = ""
    ∧ graph_print ⟨2, 1, some [⟨[⟨0, 1, 10⟩]⟩, ⟨[]⟩]⟩
        ≠ "Graph with 2 vertices and 1 edges:\nvertex 0:\n   0 ->  1 (10)\nvertex 1:\n" := by
  decide

/-- C18: on the file content `2\n0 1 10\n` and a graph whose fields are 0 and
NULL, `graph_build_from_file` ends with the graph as it was (`vertex_count` 0,
`edge_count` 0, no lists) and without a call of `graph_connect`, and
`graph_print` of that graph writes nothing. -/
theorem graph_build_from_file_leaves_graph :
    (graph_build_from_file 2 ⟨0, 0, none⟩ (some "2\n0 1 10\n")).map
        (fun st => (st.graph, st.connect_calls)) = some (⟨0, 0, none⟩, [])
    ∧ (graph_build_from_file 2 ⟨0, 0, none⟩ (some "2\n0 1 10\n")).map
        (fun st => st.graph.vertex_count) ≠ some 2
    ∧ (graph_build_from_file 2 ⟨0, 0, none⟩ (some "2\n0 1 10\n")).map
        (fun st => graph_print st.graph) = some "" := by
  decide

/-- C19: when `tail >= vertex_count`, or when adjacency list `tail` holds no
edge with the given head, the graph after `graph_disconnect` is the graph
before it. -/
theorem graph_disconnect_nothing_to_remove (graph : graph_t) (tail head : Nat)
    (h : graph.vertex_count ≤ tail
      ∨ ∀ list, graph.list_at tail = some list → ∀ e ∈ list.first, e.head ≠ head) :
    graph_disconnect graph tail head = graph := by
  cases h <;> rfl

/-- C19, on a graph of two vertices whose list 0 holds the edge 0->1: a tail
of 3 is out of range, and list 0 has no edge with head 0. -/
theorem graph_disconnect_nothing_to_remove_witness :
    graph_disconnect ⟨2, 1, some [⟨[⟨0, 1, 4⟩]⟩, ⟨[]⟩]⟩ 3 1
        = ⟨2, 1, some [⟨[⟨0, 1, 4⟩]⟩, ⟨[]⟩]⟩
    ∧ graph_disconnect ⟨2, 1, some [⟨[⟨0, 1, 4⟩]⟩, ⟨[]⟩]⟩ 0 0
        = ⟨2, 1, some [⟨[⟨0, 1, 4⟩]⟩, ⟨[]⟩]⟩ :=
  ⟨graph_disconnect_nothing_to_remove ⟨2, 1, some [⟨[⟨0, 1, 4⟩]⟩, ⟨[]⟩]⟩ 3 1
      (Or.inl (by decide)),
   graph_disconnect_nothing_to_remove ⟨2, 1, some [⟨[⟨0, 1, 4⟩]⟩, ⟨[]⟩]⟩ 0 0
      (Or.inr (by
        intro list hl e he
        have hlist : list = ⟨[⟨0, 1, 4⟩]⟩ := by
          simpa [graph_t.list_at] using hl.symm
        subst hlist
        simp only [List.mem_singleton] at he
        subst he
        decide))⟩

/-- C20: for the file content `2\nx\n0 1 10\n` (a token that is not a number
in front of a triple) and a `graph_initialise` that succeeds, the read loop
does not end within any number of iterations, whatever `graph_connect` is: the
token `x` is never read past, so the triple after it is never reached. -/
theorem graph_build_from_file_never_ends_on_bad_token (g0 g1 : graph_t)
    (connect : graph_t → Nat → Nat → Nat → Bool × graph_t) (fuel : Nat) :
    graph_build_from_file_with (fun _ _ => (true, g1)) connect fuel g0
        (some "2\nx\n0 1 10\n") = none := by
  have hstart : graph_build_from_file_with (fun _ _ => (true, g1)) connect fuel g0
      (some "2\nx\n0 1 10\n")
      = build_loop connect fuel
          ⟨g1, ⟨['\n', 'x', '\n', '0', ' ', '1', ' ', '1', '0', '\n'], false⟩, [], ""⟩ :=
    rfl
  rw [hstart]
  cases fuel with
  | zero => rfl
  | succ fuel =>
    have hstep : build_loop connect (fuel + 1)
        ⟨g1, ⟨['\n', 'x', '\n', '0', ' ', '1', ' ', '1', '0', '\n'], false⟩, [], ""⟩
        = build_loop connect fuel
          ⟨g1, ⟨['x', '\n', '0', ' ', '1', ' ', '1', '0', '\n'], false⟩, [], ""⟩ :=
      rfl
    rw [hstep]
    exact build_loop_stuck connect _ 'x' ['\n', '0', ' ', '1', ' ', '1', '0', '\n']
      (by decide) (by decide) (by decide) (by decide) rfl fuel

/-- C21: on the file content `2\n0 1 10\n`, with a `graph_initialise` that
succeeds with the graph of two empty lists, the read loop writes
`Failed to connect: 0->1` to `stderr` when `graph_connect` returns true for the
triple and writes nothing when `graph_connect` returns false; with the
`graph_connect` of graph.c, which returns false, the triple `5 1 10` with its
vertex 5 out of range gives no message either. In all three runs the loop
goes on to the end of the file. -/
theorem graph_build_from_file_message_on_success :
    graph_build_from_file_with (fun _ _ => (true, ⟨2, 0, some [⟨[]⟩, ⟨[]⟩]⟩))
        (fun g _ _ _ => (true, g)) 2 ⟨0, 0, none⟩ (some "2\n0 1 10\n")
      = some ⟨⟨2, 0, some [⟨[]⟩, ⟨[]⟩]⟩, ⟨[], true⟩, [(0, 1, 10)],
          "Failed to connect: 0->1\n"⟩
    ∧ graph_build_from_file_with (fun _ _ => (true, ⟨2, 0, some [⟨[]⟩, ⟨[]⟩]⟩))
        (fun g _ _ _ => (false, g)) 2 ⟨0, 0, none⟩ (some "2\n0 1 10\n")
      = some ⟨⟨2, 0, some [⟨[]⟩, ⟨[]⟩]⟩, ⟨[], true⟩, [(0, 1, 10)], ""⟩
    ∧ graph_build_from_file_with (fun _ _ => (true, ⟨2, 0, some [⟨[]⟩, ⟨[]⟩]⟩))
        graph_connect 2 ⟨0, 0, none⟩ (some "2\n5 1 10\n")
      = some ⟨⟨2, 0, some [⟨[]⟩, ⟨[]⟩]⟩, ⟨[], true⟩, [(5, 1, 10)], ""⟩ := by
  decide

/-- C22: on a graph whose array holds `vertex_count` chains, the sum of
`graph_indegree(graph, id)` over all `id < vertex_count` is the number of
stored edges whose head is below `vertex_count` (that number being one an
`unsigned` can hold); when every stored edge has its head below
`vertex_count`, the sum is the number of all stored edges. -/
theorem indegree_sum_counts_edges (graph : graph_t) (ls : List adjacency_list_t)
    (hls : graph.adjacency_lists = some ls) (hlen : ls.length = graph.vertex_count)
    (hfit : ((ls.map (fun l => l.first)).flatten.countP
      (fun e => e.head < graph.vertex_count)) < UINT_RANGE) :
    indegree_sum graph graph.vertex_count
        = some ((ls.map (fun l => l.first)).flatten.countP
            (fun e => e.head < graph.vertex_count))
    ∧ ((∀ e ∈ (ls.map (fun l => l.first)).flatten, e.head < graph.vertex_count) →
        indegree_sum graph graph.vertex_count
          = some ((ls.map (fun l => l.first)).flatten.length)) := by
  have h := indegree_sum_eq graph ls hls hlen hfit graph.vertex_count (Nat.le_refl _)
  unfold all_edges at h
  refine ⟨h, fun hall => ?_⟩
  rw [h]
  congr 1
  rw [List.countP_eq_length]
  intro e he
  simpa using hall e he

/-- C22, on a graph of three vertices with five stored edges, one of which has
the head 7 outside the graph: the in-degrees 1, 3 and 0 add up to 4. -/
theorem indegree_sum_counts_edges_witness :
    indegree_sum
      ⟨3, 5, some [⟨[⟨0, 1, 7⟩, ⟨0, 1, 9⟩, ⟨0, 7, 0⟩]⟩, ⟨[⟨1, 1, 3⟩]⟩, ⟨[⟨2, 0, 0⟩]⟩]⟩ 3
      = some 4 :=
  (indegree_sum_counts_edges
    ⟨3, 5, some [⟨[⟨0, 1, 7⟩, ⟨0, 1, 9⟩, ⟨0, 7, 0⟩]⟩, ⟨[⟨1, 1, 3⟩]⟩, ⟨[⟨2, 0, 0⟩]⟩]⟩
    [⟨[⟨0, 1, 7⟩, ⟨0, 1, 9⟩, ⟨0, 7, 0⟩]⟩, ⟨[⟨1, 1, 3⟩]⟩, ⟨[⟨2, 0, 0⟩]⟩]
    rfl rfl (by decide)).1

end Graph
